import Mathlib

/-!
Shallow embedding of `src/PageCollector.ts` (classes `PageCollector` and
`NetworkCollector`): per-page windowed collection of observed items with
stable-id tagging, navigation-triggered window rotation, bounded retention,
issue-key deduplication and page lifecycle.

Items are identified by reference identity; we model object references as
natural numbers and the hidden `stableIdSymbol` property as a heap
`ids : Nat → Option Nat` shared by all pages of one collector instance.
JavaScript's `Number.MAX_SAFE_INTEGER` is `2 ^ 53 - 1`; the id counter
stays far below `2 ^ 53` so plain `Nat` arithmetic is exact.
-/

namespace PC

/-- `Number.MAX_SAFE_INTEGER`. -/
def maxSafeInteger : Nat := 2 ^ 53 - 1

/-- `#maxNavigationSaved` of `PageCollector`. -/
def maxNavigationSaved : Nat := 3

/-- One call of the closure returned by `createIdGenerator`: from captured
state `i`, `if (i === Number.MAX_SAFE_INTEGER) { i = 0; } return i++;`
yields the emitted value and the new state. -/
def idGenNext (i : Nat) : Nat × Nat :=
  if i = maxSafeInteger then (0, 1) else (i, i + 1)

/-- The generator's captured state after `n` calls (it starts at `let i = 1`). -/
def stateAfter : Nat → Nat
  | 0 => 1
  | n + 1 => (idGenNext (stateAfter n)).2

/-- The value emitted by the `n`-th call of the generator, 1-indexed. -/
def emitAt (n : Nat) : Nat := (idGenNext (stateAfter (n - 1))).1

/-- Per-page state: the id generator's captured counter, the window list
(`storage` entry: `Array<Array<WithSymbolId<T>>>`, index 0 = current
navigation) holding item references, and the `#seenIssueKeys` entry. -/
structure PageState where
  counter : Nat
  storage : List (List Nat)
  seenKeys : List String
deriving DecidableEq, Repr

/-- A collector instance's whole state: the per-page structures (all the
`WeakMap`s keyed by `Page`, created and destroyed together) and the ids
carried on the item objects themselves via `stableIdSymbol`. -/
@[ext]
structure CState where
  pages : Nat → Option PageState
  ids : Nat → Option Nat

/-- A fresh collector: no page registered, no item tagged. -/
def initState : CState := ⟨fun _ => none, fun _ => none⟩

/-- Replace one page's entry (all per-page `WeakMap`s at once). -/
def setPage (s : CState) (p : Nat) (ps : Option PageState) : CState :=
  { s with pages := fun q => if q = p then ps else s.pages q }

/-- `addPage`: a page already in `storage` is untouched; otherwise
`#initializePage` creates a fresh generator (`i = 1`), `storedLists = [[]]`
and an empty seen-issue-key set. -/
def addPage (s : CState) (p : Nat) : CState :=
  match s.pages p with
  | some _ => s
  | none => setPage s p (some ⟨1, [[]], []⟩)

/-- `withId[stableIdSymbol]` is falsy: the property is absent — or `0`,
which JavaScript's `!` also treats as unassigned. -/
def needsAssign (s : CState) (r : Nat) : Bool :=
  match s.ids r with
  | none => true
  | some k => k == 0

/-- `if (!currentNavigation.includes(withId)) currentNavigation.push(withId)`. -/
def pushIfAbsent (r : Nat) (w : List Nat) : List Nat :=
  if r ∈ w then w else w ++ [r]

/-- The `collector` closure built in `#initializePage`: assign a stable id
when the item carries none (a falsy `stableIdSymbol`), then append the item
to the current window unless it is already there by reference identity.
After teardown the listeners are detached, so a late call for an
unregistered page does not happen; the registered page's window list is
never empty, so the `navigations[0]` read is total on reachable states. -/
def ingest (s : CState) (p : Nat) (r : Nat) : CState :=
  match s.pages p with
  | none => s
  | some ps =>
    match ps.storage with
    | [] => s
    | w :: rest =>
      let na := needsAssign s r
      let counter2 := if na then (idGenNext ps.counter).2 else ps.counter
      let ids2 : Nat → Option Nat :=
        if na then fun x => if x = r then some (idGenNext ps.counter).1 else s.ids x
        else s.ids
      { pages := fun q =>
          if q = p then some ⟨counter2, pushIfAbsent r w :: rest, ps.seenKeys⟩
          else s.pages q,
        ids := ids2 }

/-- `PageCollector.splitAfterNavigation`: a missing page is a no-op;
otherwise `unshift([])` then `splice(#maxNavigationSaved)`. -/
def splitAfterNavigation (s : CState) (p : Nat) : CState :=
  match s.pages p with
  | none => s
  | some ps =>
    setPage s p (some { ps with storage := (([] : List Nat) :: ps.storage).take maxNavigationSaved })

/-- `#cleanupPageDestroyed`: drop every per-page structure. The ids carried
on the item objects themselves survive. -/
def destroyPage (s : CState) (p : Nat) : CState := setPage s p none

/-- The `for (let index = #maxNavigationSaved; index >= 0; index--)` loop of
`getData`: concatenate `navigations[index]` for every index that exists,
highest index first. -/
def getDataAll (navs : List (List Nat)) : List Nat :=
  ((List.range (maxNavigationSaved + 1)).reverse).foldl (fun acc i => acc ++ navs.getD i []) []

/-- `getData(page, includePreservedData)`: unknown page yields `[]`; without
`includePreservedData` only the current window; with it the retained
windows, highest retained index (oldest epoch) first. -/
def getData (s : CState) (p : Nat) (includePreservedData : Bool) : List Nat :=
  match s.pages p with
  | none => []
  | some ps =>
    if includePreservedData then getDataAll ps.storage else ps.storage.headD []

/-- The scan inside `find`: first match window by window, current first. -/
def findInWindows (f : Nat → Bool) : List (List Nat) → Option Nat
  | [] => none
  | w :: rest =>
    match w.find? f with
    | some x => some x
    | none => findInWindows f rest

/-- `find(page, filter)`. -/
def findItem (s : CState) (p : Nat) (f : Nat → Bool) : Option Nat :=
  match s.pages p with
  | none => none
  | some ps => findInWindows f ps.storage

/-- `getById(page, stableId)`: throws for an unknown page; otherwise scans
all retained windows for `item[stableIdSymbol] === stableId` and throws when
nothing matches. -/
def getById (s : CState) (p : Nat) (sid : Nat) : Except String Nat :=
  match s.pages p with
  | none => Except.error "No requests found for selected page"
  | some _ =>
    match findItem s p (fun r => s.ids r == some sid) with
    | some it => Except.ok it
    | none => Except.error "Request not found for selected page"

end PC

namespace PC

/-- Environment for `NetworkCollector`: each request's originating frame
(`request.frame()`, possibly null), each page's main frame, and
`request.isNavigationRequest()`. -/
structure NetEnv where
  frame : Nat → Option Nat
  mainFrame : Nat → Nat
  isNav : Nat → Bool

/-- The `findLastIndex` predicate:
`request.frame() === page.mainFrame() ? request.isNavigationRequest() : false`. -/
def netPred (env : NetEnv) (p : Nat) (r : Nat) : Bool :=
  match env.frame r with
  | some f => if f = env.mainFrame p then env.isNav r else false
  | none => false

/-- `Array.prototype.findLastIndex`, with `none` for `-1`. -/
def findLastIdx (f : Nat → Bool) : List Nat → Option Nat
  | [] => none
  | x :: xs =>
    match findLastIdx f xs with
    | some i => some (i + 1)
    | none => if f x then some 0 else none

/-- `NetworkCollector.splitAfterNavigation`. For an unregistered page
`this.storage.get(page) ?? []` yields the empty array, which is truthy, so
the `if (!navigations) return` guard does not fire; `navigations[0]` is then
`undefined` and `requests.findLastIndex` throws a `TypeError` — modelled as
`none`. For a registered page the last main-frame navigation request and
everything after it are spliced out of the current window and prepended as
the new window; with no such request an empty window is prepended. No
truncation to `#maxNavigationSaved` happens in this override. -/
def networkSplitAfterNavigation (env : NetEnv) (s : CState) (p : Nat) : Option CState :=
  match s.pages p with
  | none => none
  | some ps =>
    match ps.storage with
    | [] => none
    | w :: rest =>
      match findLastIdx (netPred env p) w with
      | some k => some (setPage s p (some { ps with storage := w.drop k :: w.take k :: rest }))
      | none => some (setPage s p (some { ps with storage := ([] : List Nat) :: w :: rest }))

/-- Iterate the network rotation, propagating a thrown `TypeError`. -/
def netRotIter (env : NetEnv) (p : Nat) : Nat → CState → Option CState
  | 0, s => some s
  | n + 1, s =>
    match networkSplitAfterNavigation env s p with
    | none => none
    | some s2 => netRotIter env p n s2

/-- The `Audits.issueAdded` handler for one parsed raw issue with primary
key `key`: a key already in the page's seen set is discarded with no state
change and no forwarding; a new key is recorded and the raw issue is
forwarded to the aggregator via the mock manager (`true` = one
`dispatchEventToListeners` call). A page without a seen-key set makes
`this.#seenIssueKeys.get(page)!` yield `undefined` and the `.has` call
throw — modelled as `none`. -/
def offerIssue (s : CState) (p : Nat) (key : String) : Option (CState × Bool) :=
  match s.pages p with
  | none => none
  | some ps =>
    if key ∈ ps.seenKeys then some (s, false)
    else some (setPage s p (some { ps with seenKeys := key :: ps.seenKeys }), true)

/-- Offer a sequence of raw issues, counting forwarding calls. -/
def offerAll (s : CState) (p : Nat) : List String → Option (CState × Nat)
  | [] => some (s, 0)
  | k :: ks =>
    match offerIssue s p k with
    | none => none
    | some (s2, fwd) =>
      match offerAll s2 p ks with
      | none => none
      | some (s3, n) => some (s3, n + (if fwd then 1 else 0))

end PC

namespace PC

/-- The operations the driver's event loop can feed a `PageCollector`
(default rotation policy). -/
inductive Op where
  | addPage (p : Nat)
  | ingest (p : Nat) (r : Nat)
  | rotate (p : Nat)
  | destroy (p : Nat)
deriving DecidableEq, Repr

/-- One event. -/
def step (s : CState) : Op → CState
  | .addPage p => addPage s p
  | .ingest p r => ingest s p r
  | .rotate p => splitAfterNavigation s p
  | .destroy p => destroyPage s p

/-- Run a sequence of events from a state. -/
def runFrom (s : CState) : List Op → CState
  | [] => s
  | op :: rest => runFrom (step s op) rest

/-- Run a sequence of events on a fresh collector. -/
def run (ops : List Op) : CState := runFrom initState ops

/-- Number of ingest events in a sequence. -/
def ingestCount (ops : List Op) : Nat :=
  (ops.filter fun op => match op with | .ingest _ _ => true | _ => false).length

end PC

namespace PC

/-- A network environment in which no request qualifies as a main-frame
navigation request (every request's frame is null). -/
def emptyNetEnv : NetEnv := ⟨fun _ => none, fun _ => 0, fun _ => false⟩

/-- C1. The spec claims the window list never exceeds `maxNavigationSaved`
(3) after any rotation, default or network-specialised. The default
rotation truncates, but `NetworkCollector.splitAfterNavigation` only
prepends: after registering a page and rotating it four times (no
navigation request present, so the empty-window fallback fires each time),
the page's window list has five windows — the retention bound is violated
and the list grows without bound. -/
theorem networkRotation_exceeds_maxRetained :
    ((netRotIter emptyNetEnv 0 4 (addPage initState 0)).bind
      (fun s => (s.pages 0).map PageState.storage))
        = some [[], [], [], [], []] ∧
    ¬ (([[], [], [], [], []] : List (List Nat)).length ≤ maxNavigationSaved) := by
  constructor
  · rfl
  · decide

/-- C2. The spec claims rotation on an unregistered (or torn-down) page is a
crash-free no-op. That holds for the default policy, but the network
override's guard is dead (`?? []` yields a truthy empty array), so it reads
`navigations[0]` — `undefined` — and `requests.findLastIndex` throws a
`TypeError` (modelled as `none`): rotating a page right after teardown
crashes the network collector. -/
theorem networkRotation_crashes_after_teardown :
    networkSplitAfterNavigation emptyNetEnv (destroyPage (addPage initState 0) 0) 0 = none ∧
    splitAfterNavigation (destroyPage (addPage initState 0) 0) 0
        = destroyPage (addPage initState 0) 0 := by
  constructor
  · rfl
  · rfl

end PC

namespace PC

/-- One call advances the captured counter by the generator's step. -/
theorem stateAfter_succ (n : Nat) :
    stateAfter (n + 1) = (idGenNext (stateAfter n)).2 := rfl

/-- Unfolding of `emitAt`. -/
theorem emitAt_eq (n : Nat) : emitAt n = (idGenNext (stateAfter (n - 1))).1 := rfl

/-- The captured counter after `n` calls is `n + 1`, as long as the wrap
check has not yet fired. -/
theorem stateAfter_eq_of_le (n : Nat) (h : n ≤ maxSafeInteger - 1) :
    stateAfter n = n + 1 := by
  induction n with
  | zero => rfl
  | succ m ih =>
    have hm : m ≤ maxSafeInteger - 1 := Nat.le_of_succ_le h
    have hne : m + 1 ≠ maxSafeInteger := by
      intro he
      have : maxSafeInteger - 1 + 1 = maxSafeInteger := by decide
      omega
    simp [stateAfter, ih hm, idGenNext, hne]

/-- The state right before the `MAX_SAFE_INTEGER`-th call. -/
theorem stateAfter_at_wrap : stateAfter (maxSafeInteger - 1) = maxSafeInteger := by
  have h := stateAfter_eq_of_le (maxSafeInteger - 1) (Nat.le_refl _)
  have h1 : (1 : Nat) ≤ maxSafeInteger := by decide
  omega

/-- C6 counterexample. The claim says the generator emits every value up to
and including `Number.MAX_SAFE_INTEGER`; in fact the wrap check fires
before that value is returned, so the `MAX_SAFE_INTEGER`-th call emits `0`. -/
theorem idGenerator_skips_maxSafeInteger :
    emitAt maxSafeInteger = 0 ∧ (0 : Nat) ≠ maxSafeInteger := by
  constructor
  · rw [emitAt_eq, stateAfter_at_wrap, idGenNext, if_pos rfl]
  · decide

/-- C6 amended. The generator emits `1, 2, …, MAX_SAFE_INTEGER − 1`; the
next (the `MAX_SAFE_INTEGER`-th) call wraps and emits `0` — the value
`MAX_SAFE_INTEGER` itself is never emitted — and afterwards the sequence
repeats: call `MAX_SAFE_INTEGER + k` again emits `k` for
`1 ≤ k ≤ MAX_SAFE_INTEGER − 1`. -/
theorem idGenerator_wraps_before_max :
    (∀ n, 1 ≤ n → n ≤ maxSafeInteger - 1 → emitAt n = n) ∧
    emitAt maxSafeInteger = 0 ∧
    (∀ k, 1 ≤ k → k ≤ maxSafeInteger - 1 → emitAt (maxSafeInteger + k) = k) := by
  have hone : (1 : Nat) ≤ maxSafeInteger - 1 := by decide
  have hemit : ∀ n, 1 ≤ n → n ≤ maxSafeInteger - 1 → emitAt n = n := by
    intro n h1 h2
    have hs : stateAfter (n - 1) = n := by
      have := stateAfter_eq_of_le (n - 1) (by omega)
      omega
    have hne : n ≠ maxSafeInteger := by omega
    rw [emitAt_eq, hs, idGenNext, if_neg hne]
  have hper : ∀ n, stateAfter (maxSafeInteger + n) = stateAfter n := by
    intro n
    induction n with
    | zero =>
      have hm : maxSafeInteger + 0 = (maxSafeInteger - 1) + 1 := by omega
      rw [hm, stateAfter_succ, stateAfter_at_wrap, idGenNext, if_pos rfl]
      rfl
    | succ m ih =>
      have hm : maxSafeInteger + (m + 1) = (maxSafeInteger + m) + 1 := by omega
      rw [hm, stateAfter_succ, ih, ← stateAfter_succ]
  refine ⟨hemit, ?_, ?_⟩
  · rw [emitAt_eq, stateAfter_at_wrap, idGenNext, if_pos rfl]
  intro k h1 h2
  have hsub : maxSafeInteger + k - 1 = maxSafeInteger + (k - 1) := by omega
  have hs : stateAfter (maxSafeInteger + (k - 1)) = k := by
    rw [hper]
    have := stateAfter_eq_of_le (k - 1) (by omega)
    omega
  have hne : k ≠ maxSafeInteger := by omega
  rw [emitAt_eq, hsub, hs, idGenNext, if_neg hne]

end PC

namespace PC

/-- Unfolding of `ingest` on a registered page whose window list is
nonempty (every registered page's list is). -/
theorem ingest_registered (s : CState) (p r c : Nat) (sk : List String) (w : List Nat)
    (rest : List (List Nat)) (hp : s.pages p = some ⟨c, w :: rest, sk⟩) :
    ingest s p r =
      { pages := fun q =>
          if q = p then
            some ⟨if needsAssign s r then (idGenNext c).2 else c,
                  pushIfAbsent r w :: rest, sk⟩
          else s.pages q,
        ids :=
          if needsAssign s r then
            fun x => if x = r then some (idGenNext c).1 else s.ids x
          else s.ids } := by
  unfold ingest
  rw [hp]

/-- C3 counterexample scaffold: a state whose current window holds an item
tagged with stable id `0` — the value the generator emits right after its
wraparound. JavaScript's `!withId[stableIdSymbol]` treats `0` as unassigned. -/
def zeroIdState : CState :=
  { pages := fun q => if q = 0 then some ⟨7, [[5]], []⟩ else none,
    ids := fun x => if x = 5 then some 0 else none }

/-- C3 counterexample. Re-ingesting an item that is already in the current
window is not always a no-op: an item whose assigned StableId is `0`
(emitted by the generator right after wraparound) is falsy, so the
collector reassigns it a fresh id — the state changes. -/
theorem reingest_changes_state_on_zero_id :
    (∃ ps, zeroIdState.pages 0 = some ps ∧ 5 ∈ ps.storage.headD []) ∧
    ingest zeroIdState 0 5 ≠ zeroIdState := by
  constructor
  · exact ⟨_, rfl, by decide⟩
  · intro h
    have h7 : (ingest zeroIdState 0 5).ids 5 = some 7 := by
      rw [ingest_registered zeroIdState 0 5 7 [] [5] [] rfl]
      decide
    rw [h] at h7
    simp [zeroIdState] at h7

/-- C3 amended. Re-ingesting an object reference that is already in the
current window leaves the whole state unchanged — same StableId, no second
append — provided its assigned StableId is nonzero (every id the generator
emits before wrapping). -/
theorem ingest_idempotent_in_window (s : CState) (p r k : Nat) (ps : PageState)
    (hp : s.pages p = some ps) (hw : r ∈ ps.storage.headD [])
    (hid : s.ids r = some k) (hk : k ≠ 0) :
    ingest s p r = s := by
  obtain ⟨w, rest, hst⟩ : ∃ w rest, ps.storage = w :: rest := by
    cases hsl : ps.storage with
    | nil => rw [hsl] at hw; simp at hw
    | cons w rest => exact ⟨w, rest, rfl⟩
  have hw2 : r ∈ w := by rw [hst] at hw; simpa using hw
  have hna : needsAssign s r = false := by
    simp [needsAssign, hid]
    omega
  have hp2 : s.pages p = some ⟨ps.counter, w :: rest, ps.seenKeys⟩ := by
    rw [hp, ← hst]
  rw [ingest_registered s p r ps.counter ps.seenKeys w rest hp2, hna]
  simp only [Bool.false_eq_true, if_false]
  ext q
  · by_cases hq : q = p
    · subst hq
      simp [pushIfAbsent, hw2, hp2]
    · simp [hq]
  · rfl

/-- C3 witness state: register page 0, ingest item 3 (gets id 1). -/
theorem ingest_idempotent_in_window_witness :
    ingest (run [Op.addPage 0, Op.ingest 0 3]) 0 3 = run [Op.addPage 0, Op.ingest 0 3] :=
  ingest_idempotent_in_window (run [Op.addPage 0, Op.ingest 0 3]) 0 3 1 ⟨2, [[3]], []⟩
    (by decide) (by decide) (by decide) (by decide)

end PC

namespace PC

/-- `findLastIndex` yields `-1` exactly when no element satisfies the
predicate. -/
theorem findLastIdx_eq_none_of_all_false (f : Nat → Bool) (w : List Nat)
    (h : ∀ x ∈ w, f x = false) : findLastIdx f w = none := by
  induction w with
  | nil => rfl
  | cons x xs ih =>
    have hx : f x = false := h x (List.mem_cons_self x xs)
    have hxs : findLastIdx f xs = none := ih fun y hy => h y (List.mem_cons_of_mem x hy)
    simp [findLastIdx, hxs, hx]

/-- C5. Network-collector rotation on a registered page: with current
window `[a, b, c, d]` where `c` satisfies the main-frame navigation
predicate and `d` does not, the suffix `[c, d]` is spliced out and becomes
the new current window, `[a, b]` stays behind as window 1, and nothing is
discarded; when no element of the current window satisfies the predicate an
empty window is prepended instead. -/
theorem networkRotation_splits_at_last_nav (env : NetEnv) (s : CState) (p c0 : Nat)
    (sk : List String) (rest : List (List Nat)) :
    (∀ a b c d, s.pages p = some ⟨c0, [a, b, c, d] :: rest, sk⟩ →
      netPred env p c = true → netPred env p d = false →
      networkSplitAfterNavigation env s p =
        some (setPage s p (some ⟨c0, [c, d] :: [a, b] :: rest, sk⟩)) ∧
      [a, b] ++ [c, d] = [a, b, c, d]) ∧
    (∀ w, s.pages p = some ⟨c0, w :: rest, sk⟩ → (∀ x ∈ w, netPred env p x = false) →
      networkSplitAfterNavigation env s p =
        some (setPage s p (some ⟨c0, ([] : List Nat) :: w :: rest, sk⟩))) := by
  constructor
  · intro a b c d hp hc hd
    have hidx : findLastIdx (netPred env p) [a, b, c, d] = some 2 := by
      simp [findLastIdx, hc, hd]
    constructor
    · unfold networkSplitAfterNavigation
      rw [hp]
      simp only [hidx]
      rfl
    · rfl
  · intro w hp hall
    have hidx : findLastIdx (netPred env p) w = none :=
      findLastIdx_eq_none_of_all_false (netPred env p) w hall
    unfold networkSplitAfterNavigation
    rw [hp]
    simp only [hidx]

/-- C5 witness environment: item 2 is a main-frame navigation request of
page 0, item 3 has a null frame. -/
def navEnvW : NetEnv := ⟨fun r => if r = 2 then some 1 else none, fun _ => 1, fun r => r == 2⟩

/-- C5 witness state: page 0 registered with current window `[0, 1, 2, 3]`. -/
def navStateW : CState :=
  { pages := fun q => if q = 0 then some ⟨5, [[0, 1, 2, 3]], []⟩ else none,
    ids := fun _ => none }

/-- C5 witness: the split at the concrete window `[0, 1, 2, 3]` with item 2
the last main-frame navigation request. -/
theorem networkRotation_splits_at_last_nav_witness :
    networkSplitAfterNavigation navEnvW navStateW 0 =
      some (setPage navStateW 0 (some ⟨5, [2, 3] :: [0, 1] :: [], []⟩)) ∧
    [0, 1] ++ [2, 3] = [0, 1, 2, 3] :=
  (networkRotation_splits_at_last_nav navEnvW navStateW 0 5 [] []).1 0 1 2 3
    (by decide) (by decide) (by decide)

end PC

namespace PC

/-- `find` scans every retained window: when no retained item satisfies the
predicate the scan is empty-handed. -/
theorem findInWindows_eq_none (f : Nat → Bool) (ws : List (List Nat))
    (h : ∀ x ∈ ws.flatten, f x = false) : findInWindows f ws = none := by
  induction ws with
  | nil => rfl
  | cons w rest ih =>
    have hw : w.find? f = none := by
      apply List.find?_eq_none.mpr
      intro x hx
      simp [h x (by simp [hx])]
    have hrest : findInWindows f rest = none := by
      apply ih
      intro x hx
      exact h x (by simp at hx ⊢; exact Or.inr hx)
    simp [findInWindows, hw, hrest]

/-- C8. Queries on an absent page: destroying a page removes its entry; a
page with no entry makes `getData` return the empty sequence (with or
without history, never throwing) and `getById` throw the no-page error; and
on a registered page whose retained items all lack the requested stable id,
`getById` throws the not-found error. -/
theorem teardown_queries_empty_and_notFound (s : CState) (p sid : Nat) :
    ((destroyPage s p).pages p = none) ∧
    (s.pages p = none →
      getData s p true = [] ∧ getData s p false = [] ∧
      getById s p sid = Except.error "No requests found for selected page") ∧
    (∀ ps, s.pages p = some ps → (∀ r ∈ ps.storage.flatten, s.ids r ≠ some sid) →
      getById s p sid = Except.error "Request not found for selected page") := by
  refine ⟨by simp [destroyPage, setPage], fun hn => ?_, fun ps hp hno => ?_⟩
  · refine ⟨?_, ?_, ?_⟩ <;> simp [getData, getById, hn]
  · have hfind : findItem s p (fun r => s.ids r == some sid) = none := by
      unfold findItem
      rw [hp]
      apply findInWindows_eq_none
      intro x hx
      have := hno x hx
      simpa using this
    unfold getById
    rw [hp]
    simp only [hfind]

/-- C8 witness: page 0 with item 3 (id 1); after teardown `getData` is
empty and `getById` fails; on the live page, id 99 is not found. -/
theorem teardown_queries_empty_and_notFound_witness :
    getData (destroyPage (run [Op.addPage 0, Op.ingest 0 3]) 0) 0 true = [] ∧
    getById (destroyPage (run [Op.addPage 0, Op.ingest 0 3]) 0) 0 7
      = Except.error "No requests found for selected page" ∧
    getById (run [Op.addPage 0, Op.ingest 0 3]) 0 99
      = Except.error "Request not found for selected page" := by
  have hdead := (teardown_queries_empty_and_notFound
    (destroyPage (run [Op.addPage 0, Op.ingest 0 3]) 0) 0 7).2.1 (by decide)
  have hlive := (teardown_queries_empty_and_notFound
    (run [Op.addPage 0, Op.ingest 0 3]) 0 99).2.2 ⟨2, [[3]], []⟩ (by decide) (by decide)
  exact ⟨hdead.1, hdead.2.2, hlive⟩

end PC

namespace PC

/-- Raw issues whose primary key is already seen are all discarded: no
forwarding, no state change. -/
theorem offerAll_seen (p : Nat) (key : String) (ks : List String) :
    ∀ (s : CState) (ps : PageState), s.pages p = some ps → key ∈ ps.seenKeys →
      (∀ k ∈ ks, k = key) → offerAll s p ks = some (s, 0) := by
  induction ks with
  | nil => intro s ps _ _ _; rfl
  | cons k ks ih =>
    intro s ps hp hin hall
    have hk : k = key := hall k (List.mem_cons_self k ks)
    have hofk : offerIssue s p k = some (s, false) := by
      unfold offerIssue
      rw [hp]
      simp [hk, hin]
    have hrest : offerAll s p ks = some (s, 0) :=
      ih s ps hp hin fun y hy => hall y (List.mem_cons_of_mem k hy)
    simp [offerAll, hofk, hrest]

/-- C9. Issue deduplication: a raw issue whose primary key is already in
the page's seen set is discarded — no forwarding call, no state change (in
particular no id assignment); and offering any nonempty sequence of raw
issues that all carry one fresh primary key produces exactly one forwarding
call to the aggregation service. -/
theorem issue_dedup_forwards_once (s : CState) (p : Nat) (ps : PageState) (key : String)
    (ks : List String) (hp : s.pages p = some ps) :
    (key ∈ ps.seenKeys → offerIssue s p key = some (s, false)) ∧
    (key ∉ ps.seenKeys → ks ≠ [] → (∀ k ∈ ks, k = key) →
      ∃ s2, offerAll s p ks = some (s2, 1)) := by
  constructor
  · intro hin
    unfold offerIssue
    rw [hp]
    simp [hin]
  · intro hout hne hall
    match ks, hne with
    | k :: ks2, _ =>
      have hk : k = key := hall k (List.mem_cons_self k ks2)
      have hofk : offerIssue s p k =
          some (setPage s p (some { ps with seenKeys := key :: ps.seenKeys }), true) := by
        unfold offerIssue
        rw [hp]
        simp [hk, hout]
      have hp2 : (setPage s p (some { ps with seenKeys := key :: ps.seenKeys })).pages p
          = some { ps with seenKeys := key :: ps.seenKeys } := by
        simp [setPage]
      have hrest : offerAll (setPage s p (some { ps with seenKeys := key :: ps.seenKeys })) p ks2
          = some (setPage s p (some { ps with seenKeys := key :: ps.seenKeys }), 0) :=
        offerAll_seen p key ks2 _ _ hp2 (List.mem_cons_self key ps.seenKeys)
          fun y hy => hall y (List.mem_cons_of_mem k hy)
      refine ⟨setPage s p (some { ps with seenKeys := key :: ps.seenKeys }), ?_⟩
      simp [offerAll, hofk, hrest]

/-- C9 witness: two identical raw issues on a fresh page forward exactly
once. -/
theorem issue_dedup_forwards_once_witness :
    ∃ s2, offerAll (run [Op.addPage 0]) 0 ["key1", "key1"] = some (s2, 1) :=
  (issue_dedup_forwards_once (run [Op.addPage 0]) 0 ⟨1, [[]], []⟩ "key1" ["key1", "key1"]
    (by decide)).2 (by decide) (by decide) (by decide)

end PC

namespace PC

/-- The `getData` history loop, window list of length at most
`#maxNavigationSaved`: every retained window is concatenated, oldest
first. -/
theorem getDataAll_eq_flatten_reverse (navs : List (List Nat))
    (h : navs.length ≤ maxNavigationSaved) :
    getDataAll navs = navs.reverse.flatten := by
  match navs with
  | [] => rfl
  | [a] =>
    have h1 : getDataAll [a] = a := rfl
    simp [h1]
  | [a, b] =>
    have h1 : getDataAll [a, b] = b ++ a := rfl
    simp [h1]
  | [a, b, c] =>
    have h1 : getDataAll [a, b, c] = (c ++ b) ++ a := rfl
    simp [h1]
  | a :: b :: c :: d :: rest =>
    exfalso
    simp [maxNavigationSaved] at h

/-- C10. Reference-identity deduplication inspects only the current window:
an item residing in an older retained window but not in the current one is
appended again on re-ingest, and the history query then returns it at least
twice. -/
theorem reingest_after_rotation_duplicates (s : CState) (p r i : Nat) (ps : PageState)
    (hp : s.pages p = some ps) (hlen : ps.storage.length ≤ maxNavigationSaved)
    (hi1 : 1 ≤ i) (hi2 : i < ps.storage.length)
    (hnot : r ∉ ps.storage.headD []) (hmem : r ∈ ps.storage.getD i []) :
    2 ≤ (getData (ingest s p r) p true).count r := by
  obtain ⟨w, rest, hst⟩ : ∃ w rest, ps.storage = w :: rest := by
    cases hsl : ps.storage with
    | nil => rw [hsl] at hi2; simp at hi2
    | cons w rest => exact ⟨w, rest, rfl⟩
  have hw2 : r ∉ w := by rw [hst] at hnot; simpa using hnot
  have hp2 : s.pages p = some ⟨ps.counter, w :: rest, ps.seenKeys⟩ := by
    rw [hp, ← hst]
  have hrmem : r ∈ rest.getD (i - 1) [] := by
    rw [hst] at hmem
    have : (w :: rest).getD i [] = rest.getD (i - 1) [] := by
      match i, hi1 with
      | j + 1, _ => simp [List.getD_cons_succ]
    rwa [this] at hmem
  have hilen : i - 1 < rest.length := by
    rw [hst] at hi2
    simp at hi2
    omega
  rw [ingest_registered s p r ps.counter ps.seenKeys w rest hp2]
  have hpageseq : (fun q => if q = p then
      some (⟨if needsAssign s r then (idGenNext ps.counter).2 else ps.counter,
        pushIfAbsent r w :: rest, ps.seenKeys⟩ : PageState) else s.pages q) p
      = some ⟨if needsAssign s r then (idGenNext ps.counter).2 else ps.counter,
        pushIfAbsent r w :: rest, ps.seenKeys⟩ := by simp
  unfold getData
  simp only [hpageseq, if_pos]
  have hlen2 : (pushIfAbsent r w :: rest).length ≤ maxNavigationSaved := by
    have : (pushIfAbsent r w :: rest).length = (w :: rest).length := by
      simp [pushIfAbsent, hw2]
    rw [this, ← hst]
    exact hlen
  rw [getDataAll_eq_flatten_reverse _ hlen2]
  have hsplit : (pushIfAbsent r w :: rest).reverse.flatten
      = rest.reverse.flatten ++ pushIfAbsent r w := by
    simp
  rw [hsplit, List.count_append]
  have hc1 : 1 ≤ (pushIfAbsent r w).count r := by
    apply List.count_pos_iff.mpr
    simp [pushIfAbsent, hw2]
  have hc2 : 1 ≤ rest.reverse.flatten.count r := by
    apply List.count_pos_iff.mpr
    apply List.mem_flatten.mpr
    refine ⟨rest.getD (i - 1) [], ?_, hrmem⟩
    simp only [List.mem_reverse]
    rw [List.getD_eq_getElem rest [] hilen]
    exact List.getElem_mem hilen
  omega

/-- C10 witness: page 0, item 7 ingested, rotated to window 1, re-ingested;
the history query returns it twice. -/
theorem reingest_after_rotation_duplicates_witness :
    2 ≤ (getData (ingest (run [Op.addPage 0, Op.ingest 0 7, Op.rotate 0]) 0 7) 0 true).count 7 :=
  reingest_after_rotation_duplicates (run [Op.addPage 0, Op.ingest 0 7, Op.rotate 0]) 0 7 1
    ⟨2, [[], [7]], []⟩ (by decide) (by decide) (by decide) (by decide) (by decide) (by decide)

end PC

namespace PC

/-- A page's window list, observed through the per-page map. -/
def pstor (s : CState) (p : Nat) : Option (List (List Nat)) :=
  (s.pages p).map PageState.storage

/-- The effect of one event on one page's window list alone: the window
list after a step depends only on the window list before it (ids, counters
and seen keys never feed back into the stored windows). -/
def storF (p : Nat) (op : Op) (σ : Option (List (List Nat))) : Option (List (List Nat)) :=
  match op with
  | .addPage q =>
    if q = p then (match σ with | none => some [[]] | some navs => some navs) else σ
  | .ingest q r =>
    if q = p then
      (match σ with
       | some (w :: rest) => some (pushIfAbsent r w :: rest)
       | other => other)
    else σ
  | .rotate q =>
    if q = p then σ.map (fun navs => (([] : List Nat) :: navs).take maxNavigationSaved) else σ
  | .destroy q => if q = p then none else σ

/-- `storF` computes the window list of `step`. -/
theorem pstor_step (s : CState) (op : Op) (p : Nat) :
    pstor (step s op) p = storF p op (pstor s p) := by
  cases op with
  | addPage q =>
    by_cases hq : q = p
    · subst hq
      cases hpq : s.pages q with
      | some ps => simp [step, addPage, hpq, pstor, storF]
      | none => simp [step, addPage, hpq, pstor, storF, setPage]
    · cases hpq : s.pages q with
      | some ps => simp [step, addPage, hpq, pstor, storF, hq]
      | none => simp [step, addPage, hpq, pstor, storF, setPage, hq, Ne.symm hq]
  | ingest q r =>
    by_cases hq : q = p
    · subst hq
      cases hpq : s.pages q with
      | some ps =>
        cases hst : ps.storage with
        | nil => simp [step, ingest, hpq, hst, pstor, storF]
        | cons w rest => simp [step, ingest, hpq, hst, pstor, storF]
      | none => simp [step, ingest, hpq, pstor, storF]
    · cases hpq : s.pages q with
      | some ps =>
        cases hst : ps.storage with
        | nil => simp [step, ingest, hpq, hst, pstor, storF, hq]
        | cons w rest => simp [step, ingest, hpq, hst, pstor, storF, hq, Ne.symm hq]
      | none => simp [step, ingest, hpq, pstor, storF, hq]
  | rotate q =>
    by_cases hq : q = p
    · subst hq
      cases hpq : s.pages q with
      | some ps => simp [step, splitAfterNavigation, hpq, pstor, storF, setPage]
      | none => simp [step, splitAfterNavigation, hpq, pstor, storF]
    · cases hpq : s.pages q with
      | some ps => simp [step, splitAfterNavigation, hpq, pstor, storF, setPage, hq, Ne.symm hq]
      | none => simp [step, splitAfterNavigation, hpq, pstor, storF, hq]
  | destroy q =>
    by_cases hq : q = p
    · subst hq
      simp [step, destroyPage, pstor, storF, setPage]
    · simp [step, destroyPage, pstor, storF, setPage, hq, Ne.symm hq]

/-- Iterated `storF`. -/
def storRun (p : Nat) (σ : Option (List (List Nat))) : List Op → Option (List (List Nat))
  | [] => σ
  | op :: rest => storRun p (storF p op σ) rest

/-- A run's window list for page `p` is the iterated `storF`. -/
theorem pstor_runFrom (p : Nat) (ops : List Op) :
    ∀ s, pstor (runFrom s ops) p = storRun p (pstor s p) ops := by
  induction ops with
  | nil => intro s; rfl
  | cons op rest ih =>
    intro s
    rw [runFrom, storRun, ← pstor_step]
    exact ih (step s op)

end PC

namespace PC

/-- Invariant of every reachable state: a registered page's window list is
nonempty and never longer than `#maxNavigationSaved` (the default rotation
truncates; ingest preserves length; registration starts at `[[]]`). -/
def GoodS (s : CState) : Prop :=
  ∀ p ps, s.pages p = some ps →
    1 ≤ ps.storage.length ∧ ps.storage.length ≤ maxNavigationSaved

/-- One event preserves the window-list invariant. -/
theorem goodS_step (s : CState) (op : Op) (h : GoodS s) : GoodS (step s op) := by
  intro p ps hps
  have hps2 : pstor (step s op) p = some ps.storage := by
    rw [pstor, hps]; rfl
  rw [pstor_step] at hps2
  cases op with
  | addPage q =>
    by_cases hq : q = p
    · subst hq
      cases hpq : pstor s q with
      | some navs =>
        rw [hpq] at hps2
        simp [storF] at hps2
        obtain ⟨qs, hqs, hst⟩ : ∃ qs, s.pages q = some qs ∧ qs.storage = navs := by
          rw [pstor] at hpq
          cases hsq : s.pages q with
          | none => rw [hsq] at hpq; simp at hpq
          | some qs => rw [hsq] at hpq; simp at hpq; exact ⟨qs, rfl, hpq⟩
        have := h q qs hqs
        rw [hst] at this
        rw [← hps2]
        exact this
      | none =>
        rw [hpq] at hps2
        simp [storF] at hps2
        rw [← hps2]
        simp [maxNavigationSaved]
    · simp only [storF] at hps2
      rw [if_neg hq] at hps2
      obtain ⟨qs, hqs, hst⟩ : ∃ qs, s.pages p = some qs ∧ qs.storage = ps.storage := by
        rw [pstor] at hps2
        cases hsq : s.pages p with
        | none => rw [hsq] at hps2; simp at hps2
        | some qs => rw [hsq] at hps2; simp at hps2; exact ⟨qs, rfl, hps2⟩
      have := h p qs hqs
      rw [hst] at this
      exact this
  | ingest q r =>
    by_cases hq : q = p
    · subst hq
      cases hpq : pstor s q with
      | some navs =>
        rw [hpq] at hps2
        obtain ⟨qs, hqs, hst⟩ : ∃ qs, s.pages q = some qs ∧ qs.storage = navs := by
          rw [pstor] at hpq
          cases hsq : s.pages q with
          | none => rw [hsq] at hpq; simp at hpq
          | some qs => rw [hsq] at hpq; simp at hpq; exact ⟨qs, rfl, hpq⟩
        have hlen := h q qs hqs
        rw [hst] at hlen
        cases navs with
        | nil => simp [storF] at hps2; rw [hps2]; exact hlen
        | cons w rest =>
          simp [storF] at hps2
          rw [← hps2]
          simpa using hlen
      | none => rw [hpq] at hps2; simp [storF] at hps2
    · simp only [storF] at hps2
      rw [if_neg hq] at hps2
      obtain ⟨qs, hqs, hst⟩ : ∃ qs, s.pages p = some qs ∧ qs.storage = ps.storage := by
        rw [pstor] at hps2
        cases hsq : s.pages p with
        | none => rw [hsq] at hps2; simp at hps2
        | some qs => rw [hsq] at hps2; simp at hps2; exact ⟨qs, rfl, hps2⟩
      have := h p qs hqs
      rw [hst] at this
      exact this
  | rotate q =>
    by_cases hq : q = p
    · subst hq
      cases hpq : pstor s q with
      | some navs =>
        rw [hpq] at hps2
        simp [storF] at hps2
        rw [← hps2]
        simp [List.length_take, maxNavigationSaved]
      | none => rw [hpq] at hps2; simp [storF] at hps2
    · simp only [storF] at hps2
      rw [if_neg hq] at hps2
      obtain ⟨qs, hqs, hst⟩ : ∃ qs, s.pages p = some qs ∧ qs.storage = ps.storage := by
        rw [pstor] at hps2
        cases hsq : s.pages p with
        | none => rw [hsq] at hps2; simp at hps2
        | some qs => rw [hsq] at hps2; simp at hps2; exact ⟨qs, rfl, hps2⟩
      have := h p qs hqs
      rw [hst] at this
      exact this
  | destroy q =>
    by_cases hq : q = p
    · subst hq; simp [storF] at hps2
    · simp only [storF] at hps2
      rw [if_neg hq] at hps2
      obtain ⟨qs, hqs, hst⟩ : ∃ qs, s.pages p = some qs ∧ qs.storage = ps.storage := by
        rw [pstor] at hps2
        cases hsq : s.pages p with
        | none => rw [hsq] at hps2; simp at hps2
        | some qs => rw [hsq] at hps2; simp at hps2; exact ⟨qs, rfl, hps2⟩
      have := h p qs hqs
      rw [hst] at this
      exact this

/-- The invariant holds along every run. -/
theorem goodS_runFrom (ops : List Op) : ∀ s, GoodS s → GoodS (runFrom s ops) := by
  induction ops with
  | nil => intro s h; exact h
  | cons op rest ih => intro s h; exact ih (step s op) (goodS_step s op h)

/-- The invariant holds in every state reachable from a fresh collector. -/
theorem goodS_run (ops : List Op) : GoodS (run ops) := by
  apply goodS_runFrom
  intro p ps h
  simp [initState] at h

end PC

namespace PC

/-- No event except destroying the page itself removes its window list. -/
theorem storF_ne_none (p : Nat) (op : Op) (σ : Option (List (List Nat)))
    (hop : op ≠ Op.destroy p) (hσ : σ ≠ none) : storF p op σ ≠ none := by
  cases op with
  | addPage q =>
    by_cases hq : q = p
    · subst hq
      cases σ with
      | none => simp [storF]
      | some navs => simp [storF]
    · simpa [storF, hq] using hσ
  | ingest q r =>
    by_cases hq : q = p
    · subst hq
      cases σ with
      | none => exact absurd rfl hσ
      | some navs => cases navs with
        | nil => simp [storF]
        | cons w rest => simp [storF]
    · simpa [storF, hq] using hσ
  | rotate q =>
    by_cases hq : q = p
    · subst hq
      cases σ with
      | none => exact absurd rfl hσ
      | some navs => simp [storF]
    · simpa [storF, hq] using hσ
  | destroy q =>
    have hq : q ≠ p := fun h => hop (by rw [h])
    simpa [storF, hq] using hσ

/-- A window list survives any destroy-free run. -/
theorem storRun_ne_none (p : Nat) (ops : List Op)
    (hnd : ∀ op ∈ ops, op ≠ Op.destroy p) :
    ∀ σ, σ ≠ none → storRun p σ ops ≠ none := by
  induction ops with
  | nil => intro σ h; exact h
  | cons op rest ih =>
    intro σ h
    rw [storRun]
    exact ih (fun o ho => hnd o (List.mem_cons_of_mem op ho)) _
      (storF_ne_none p op σ (hnd op (List.mem_cons_self op rest)) h)

/-- After three rotations of page `p` (with no `addPage`/`destroy` for `p`
interleaved), the window list no longer depends on anything that was stored
before: every window from the earlier history has been shifted out. -/
theorem storRun_indep (p : Nat) :
    ∀ (ops : List Op) (n : Nat) (ls lt : List (List Nat)),
      ls.take n = lt.take n →
      ls.length ≤ maxNavigationSaved → lt.length ≤ maxNavigationSaved →
      (∀ op ∈ ops, op ≠ Op.destroy p ∧ op ≠ Op.addPage p) →
      maxNavigationSaved ≤ n + ops.count (Op.rotate p) →
      storRun p (some ls) ops = storRun p (some lt) ops := by
  intro ops
  induction ops with
  | nil =>
    intro n ls lt htake hls hlt _ hcnt
    simp only [List.count_nil, Nat.add_zero] at hcnt
    rw [storRun, storRun, ← List.take_of_length_le (le_trans hls hcnt),
        ← List.take_of_length_le (le_trans hlt hcnt), htake]
  | cons op rest ih =>
    intro n ls lt htake hls hlt hnt hcnt
    obtain ⟨hop1, hop2⟩ := hnt op (List.mem_cons_self op rest)
    have hntr : ∀ o ∈ rest, o ≠ Op.destroy p ∧ o ≠ Op.addPage p :=
      fun o ho => hnt o (List.mem_cons_of_mem op ho)
    rw [storRun, storRun]
    cases op with
    | addPage q =>
      have hq : q ≠ p := fun h => hop2 (by rw [h])
      have hc : (Op.addPage q :: rest).count (Op.rotate p) = rest.count (Op.rotate p) := by
        rw [List.count_cons]
        simp
      rw [hc] at hcnt
      simp only [storF, if_neg hq]
      exact ih n ls lt htake hls hlt hntr hcnt
    | destroy q =>
      have hq : q ≠ p := fun h => hop1 (by rw [h])
      simp only [storF, if_neg hq]
      have hc : (Op.destroy q :: rest).count (Op.rotate p) = rest.count (Op.rotate p) := by
        rw [List.count_cons]
        simp
      rw [hc] at hcnt
      exact ih n ls lt htake hls hlt hntr hcnt
    | ingest q r =>
      have hc : (Op.ingest q r :: rest).count (Op.rotate p) = rest.count (Op.rotate p) := by
        rw [List.count_cons]
        simp
      rw [hc] at hcnt
      by_cases hq : q = p
      · subst hq
        cases n with
        | zero =>
          cases ls with
          | nil =>
            cases lt with
            | nil => simp only [storF, if_pos rfl]
            | cons v vs =>
              simp only [storF, if_pos rfl]
              exact ih 0 [] (pushIfAbsent r v :: vs) rfl (by simpa using hls)
                (by simpa [pushIfAbsent] using hlt) hntr (by simpa using hcnt)
          | cons w ws =>
            cases lt with
            | nil =>
              simp only [storF, if_pos rfl]
              exact ih 0 (pushIfAbsent r w :: ws) [] rfl
                (by simpa [pushIfAbsent] using hls) (by simpa using hlt) hntr
                (by simpa using hcnt)
            | cons v vs =>
              simp only [storF, if_pos rfl]
              exact ih 0 (pushIfAbsent r w :: ws) (pushIfAbsent r v :: vs) rfl
                (by simpa [pushIfAbsent] using hls) (by simpa [pushIfAbsent] using hlt) hntr
                (by simpa using hcnt)
        | succ m =>
          cases ls with
          | nil =>
            have hltnil : lt = [] := by
              have h0 : lt.take (m + 1) = [] := by rw [← htake]; simp
              rcases List.take_eq_nil_iff.mp h0 with h | h
              · exact absurd h (by omega)
              · exact h
            subst hltnil
            rfl
          | cons w ws =>
            cases lt with
            | nil =>
              have : ([] : List (List Nat)).take (m + 1) = (w :: ws).take (m + 1) := by
                rw [htake]
              simp at this
            | cons v vs =>
              simp only [List.take_succ_cons, List.cons.injEq] at htake
              obtain ⟨hwv, htake2⟩ := htake
              subst hwv
              simp only [storF, if_pos rfl]
              apply ih (m + 1) (pushIfAbsent r w :: ws) (pushIfAbsent r w :: vs)
              · simp only [List.take_succ_cons, List.cons.injEq, true_and]
                exact htake2
              · simpa [pushIfAbsent] using hls
              · simpa [pushIfAbsent] using hlt
              · exact hntr
              · simpa using hcnt
      · simp only [storF, if_neg hq]
        exact ih n ls lt htake hls hlt hntr hcnt
    | rotate q =>
      by_cases hq : q = p
      · have hc : (Op.rotate q :: rest).count (Op.rotate p) = rest.count (Op.rotate p) + 1 := by
          rw [List.count_cons]
          simp [hq]
        rw [hc] at hcnt
        subst hq
        simp only [storF, if_pos rfl, Option.map_some]
        by_cases hn : maxNavigationSaved ≤ n
        · have hlseq : ls = lt := by
            rw [← List.take_of_length_le (le_trans hls hn),
                ← List.take_of_length_le (le_trans hlt hn)]
            exact htake
          rw [hlseq]
        · apply ih (n + 1)
          · have hmin : n + 1 ≤ maxNavigationSaved := by omega
            rw [List.take_take, List.take_take]
            rw [Nat.min_eq_left hmin]
            simp only [List.take_succ_cons, List.cons.injEq, true_and]
            exact htake
          · simp only [List.length_take]
            omega
          · simp only [List.length_take]
            omega
          · exact hntr
          · omega
      · have hc : (Op.rotate q :: rest).count (Op.rotate p) = rest.count (Op.rotate p) := by
          rw [List.count_cons]
          simp
          exact hq
        rw [hc] at hcnt
        simp only [storF, if_neg hq]
        exact ih n ls lt htake hls hlt hntr hcnt

end PC

namespace PC

/-- Splitting a run at any point. -/
theorem runFrom_append (l1 l2 : List Op) :
    ∀ s, runFrom s (l1 ++ l2) = runFrom (runFrom s l1) l2 := by
  induction l1 with
  | nil => intro s; rfl
  | cons op rest ih =>
    intro s
    rw [List.cons_append, runFrom, runFrom]
    exact ih (step s op)

/-- With at most `#maxNavigationSaved` retained windows, the history query
returns exactly their concatenation, oldest epoch first. -/
theorem getData_true_eq (s : CState) (p : Nat) (ps : PageState) (hp : s.pages p = some ps)
    (hlen : ps.storage.length ≤ maxNavigationSaved) :
    getData s p true = ps.storage.reverse.flatten := by
  unfold getData
  rw [hp]
  simp [getDataAll_eq_flatten_reverse ps.storage hlen]

/-- C4. Default-rotation history bound: in any run, a registered page
retains at most `#maxNavigationSaved` (3) windows and
`getData(page, true)` concatenates exactly the retained windows, oldest
epoch first; and once the tail of the run contains `maxRetained + 1` (or
even just 3) rotations of the page, the result is independent of the whole
earlier history — every epoch from before those rotations is unreachable. -/
theorem history_bounded_after_rotations (ops1 ops1' ops2 : List Op) (p : Nat)
    (h1 : (run ops1).pages p ≠ none) (h1' : (run ops1').pages p ≠ none)
    (hnt : ∀ op ∈ ops2, op ≠ Op.destroy p ∧ op ≠ Op.addPage p)
    (hrot : maxNavigationSaved + 1 ≤ ops2.count (Op.rotate p)) :
    (∃ ps, (run (ops1 ++ ops2)).pages p = some ps ∧
      ps.storage.length ≤ maxNavigationSaved ∧
      getData (run (ops1 ++ ops2)) p true = ps.storage.reverse.flatten) ∧
    getData (run (ops1 ++ ops2)) p true = getData (run (ops1' ++ ops2)) p true := by
  obtain ⟨ps1, hps1⟩ := Option.ne_none_iff_exists'.mp h1
  obtain ⟨ps1', hps1'⟩ := Option.ne_none_iff_exists'.mp h1'
  have hg1 := goodS_run ops1 p ps1 hps1
  have hg1' := goodS_run ops1' p ps1' hps1'
  have hrunA : run (ops1 ++ ops2) = runFrom (run ops1) ops2 := by
    unfold run
    rw [runFrom_append]
  have hrunB : run (ops1' ++ ops2) = runFrom (run ops1') ops2 := by
    unfold run
    rw [runFrom_append]
  have hpA : pstor (run (ops1 ++ ops2)) p = storRun p (some ps1.storage) ops2 := by
    rw [hrunA, pstor_runFrom]
    congr 1
    rw [pstor, hps1]
    rfl
  have hpB : pstor (run (ops1' ++ ops2)) p = storRun p (some ps1'.storage) ops2 := by
    rw [hrunB, pstor_runFrom]
    congr 1
    rw [pstor, hps1']
    rfl
  have heq : storRun p (some ps1.storage) ops2 = storRun p (some ps1'.storage) ops2 := by
    apply storRun_indep p ops2 0 ps1.storage ps1'.storage rfl hg1.2 hg1'.2 hnt
    omega
  have hnd : ∀ op ∈ ops2, op ≠ Op.destroy p := fun op h => (hnt op h).1
  obtain ⟨psA, hpsA⟩ : ∃ psA, (run (ops1 ++ ops2)).pages p = some psA := by
    cases hA : (run (ops1 ++ ops2)).pages p with
    | none =>
      exfalso
      apply storRun_ne_none p ops2 hnd (some ps1.storage) (by simp)
      rw [← hpA, pstor, hA]
      rfl
    | some psA => exact ⟨psA, rfl⟩
  have hgA := goodS_run (ops1 ++ ops2) p psA hpsA
  obtain ⟨psB, hpsB⟩ : ∃ psB, (run (ops1' ++ ops2)).pages p = some psB := by
    cases hB : (run (ops1' ++ ops2)).pages p with
    | none =>
      exfalso
      apply storRun_ne_none p ops2 hnd (some ps1'.storage) (by simp)
      rw [← hpB, pstor, hB]
      rfl
    | some psB => exact ⟨psB, rfl⟩
  have hgB := goodS_run (ops1' ++ ops2) p psB hpsB
  have hstoreq : psA.storage = psB.storage := by
    have h2 : pstor (run (ops1 ++ ops2)) p = pstor (run (ops1' ++ ops2)) p := by
      rw [hpA, hpB, heq]
    rw [pstor, pstor, hpsA, hpsB] at h2
    simpa using h2
  refine ⟨⟨psA, hpsA, hgA.2, getData_true_eq _ p psA hpsA hgA.2⟩, ?_⟩
  rw [getData_true_eq _ p psA hpsA hgA.2, getData_true_eq _ p psB hpsB hgB.2, hstoreq]

/-- C4 witness: two different histories for page 0 (one ingested an item,
one did not) followed by four rotations agree, and the bound holds. -/
theorem history_bounded_after_rotations_witness :
    (∃ ps, (run ([Op.addPage 0, Op.ingest 0 5]
        ++ [Op.rotate 0, Op.rotate 0, Op.rotate 0, Op.rotate 0])).pages 0 = some ps ∧
      ps.storage.length ≤ maxNavigationSaved ∧
      getData (run ([Op.addPage 0, Op.ingest 0 5]
        ++ [Op.rotate 0, Op.rotate 0, Op.rotate 0, Op.rotate 0])) 0 true
        = ps.storage.reverse.flatten) ∧
    getData (run ([Op.addPage 0, Op.ingest 0 5]
        ++ [Op.rotate 0, Op.rotate 0, Op.rotate 0, Op.rotate 0])) 0 true
      = getData (run ([Op.addPage 0]
        ++ [Op.rotate 0, Op.rotate 0, Op.rotate 0, Op.rotate 0])) 0 true :=
  history_bounded_after_rotations [Op.addPage 0, Op.ingest 0 5] [Op.addPage 0]
    [Op.rotate 0, Op.rotate 0, Op.rotate 0, Op.rotate 0] 0
    (by decide) (by decide) (by decide) (by decide)

end PC

namespace PC

/-- Pages of `setPage`. -/
theorem setPage_pages (s : CState) (q : Nat) (v : Option PageState) (x : Nat) :
    (setPage s q v).pages x = if x = q then v else s.pages x := rfl

/-- Ids of `setPage`. -/
theorem setPage_ids (s : CState) (q : Nat) (v : Option PageState) :
    (setPage s q v).ids = s.ids := rfl

/-- Default rotation on a registered page only rewrites the window list. -/
theorem rotate_eq (s : CState) (q : Nat) (qs : PageState) (hq : s.pages q = some qs) :
    splitAfterNavigation s q =
      setPage s q
        (some { qs with storage := (([] : List Nat) :: qs.storage).take maxNavigationSaved }) := by
  unfold splitAfterNavigation
  rw [hq]

/-- Default rotation on a missing page is a no-op. -/
theorem rotate_none (s : CState) (q : Nat) (hq : s.pages q = none) :
    splitAfterNavigation s q = s := by
  unfold splitAfterNavigation
  rw [hq]

/-- Ingest for an unregistered page (late event after teardown). -/
theorem ingest_none (s : CState) (q r : Nat) (hq : s.pages q = none) : ingest s q r = s := by
  unfold ingest
  rw [hq]

/-- Ingest with an (unreachable) empty window list. -/
theorem ingest_nilstore (s : CState) (q r : Nat) (qs : PageState) (hq : s.pages q = some qs)
    (hst : qs.storage = []) : ingest s q r = s := by
  unfold ingest
  rw [hq]
  simp [hst]

/-- Whether this ingest call actually assigns a fresh id. -/
def assignHappens (s : CState) (q r : Nat) : Bool :=
  match s.pages q with
  | none => false
  | some qs =>
    match qs.storage with
    | [] => false
    | _ :: _ => needsAssign s r

/-- Ghost bookkeeping for one event: which page's generator tagged each
item. -/
def tagStep (s : CState) (m : Nat → Option Nat) : Op → (Nat → Option Nat)
  | .ingest q r => if assignHappens s q r then (fun x => if x = r then some q else m x) else m
  | _ => m

/-- Ghost bookkeeping along a run. -/
def tagRun : CState → (Nat → Option Nat) → List Op → (Nat → Option Nat)
  | _, m, [] => m
  | s, m, op :: rest => tagRun (step s op) (tagStep s m op) rest

/-- Which page tagged each item during a run from a fresh collector. -/
def tagMapOf (ops : List Op) : Nat → Option Nat :=
  tagRun initState (fun _ => none) ops

/-- Ingests still ahead (each consumes at most one counter value). -/
def opIngestCost : Op → Nat
  | .ingest _ _ => 1
  | _ => 0

theorem ingestCount_cons (op : Op) (rest : List Op) :
    ingestCount (op :: rest) = ingestCount rest + opIngestCost op := by
  cases op <;> simp [ingestCount, opIngestCost, List.filter_cons]

/-- The inductive invariant behind per-page id uniqueness, for a page `p`
that is never destroyed: while at most `fuel` ingests remain and no
counter can reach the wrap line, every registered counter is positive and
`fuel`-bounded, every assigned id is positive, every item tagged by page
`p`'s generator carries a positive id below `p`'s current counter, and two
distinct items tagged by `p` carry distinct ids. -/
def InvC7 (p : Nat) (s : CState) (m : Nat → Option Nat) (fuel : Nat) : Prop :=
  (fuel + 1 ≤ maxSafeInteger) ∧
  (∀ q qs, s.pages q = some qs → 1 ≤ qs.counter ∧ qs.counter + fuel ≤ maxSafeInteger) ∧
  (∀ r k, s.ids r = some k → 1 ≤ k) ∧
  (∀ r, m r = some p → ∃ ps, s.pages p = some ps ∧
      ∃ k, s.ids r = some k ∧ 1 ≤ k ∧ k < ps.counter) ∧
  (∀ r r2, r ≠ r2 → m r = some p → m r2 = some p → s.ids r ≠ s.ids r2)

end PC

namespace PC

/-- One destroy-free event preserves the id-uniqueness invariant. -/
theorem invC7_step (p : Nat) (s : CState) (m : Nat → Option Nat) (op : Op) (fuel : Nat)
    (hop : op ≠ Op.destroy p)
    (hinv : InvC7 p s m (fuel + opIngestCost op)) :
    InvC7 p (step s op) (tagStep s m op) fuel := by
  obtain ⟨h0, h1, h2, h3, h4⟩ := hinv
  cases op with
  | addPage q =>
    simp only [opIngestCost, Nat.add_zero] at h0 h1
    have htag : tagStep s m (Op.addPage q) = m := rfl
    rw [htag]
    cases hpq : s.pages q with
    | some qs =>
      have hstep : step s (Op.addPage q) = s := by
        simp [step, addPage, hpq]
      rw [hstep]
      exact ⟨h0, h1, h2, h3, h4⟩
    | none =>
      have hstep : step s (Op.addPage q) = setPage s q (some ⟨1, [[]], []⟩) := by
        simp [step, addPage, hpq]
      rw [hstep]
      unfold InvC7
      refine ⟨h0, ?_, h2, ?_, h4⟩
      · intro q2 qs2 hq2
        rw [setPage_pages] at hq2
        by_cases hqq : q2 = q
        · rw [if_pos hqq] at hq2
          have : qs2 = ⟨1, [[]], []⟩ := by
            injection hq2 with h
            exact h.symm
          rw [this]
          refine ⟨le_refl 1, ?_⟩
          show 1 + fuel ≤ maxSafeInteger
          omega
        · rw [if_neg hqq] at hq2
          exact h1 q2 qs2 hq2
      · intro r hr
        obtain ⟨ps, hps, hk⟩ := h3 r hr
        have hpq2 : p ≠ q := by
          intro he
          rw [he, hpq] at hps
          cases hps
        refine ⟨ps, ?_, hk⟩
        rw [setPage_pages, if_neg hpq2]
        exact hps
  | destroy q =>
    simp only [opIngestCost, Nat.add_zero] at h0 h1
    have hq : q ≠ p := fun h => hop (by rw [h])
    have htag : tagStep s m (Op.destroy q) = m := rfl
    have hstep : step s (Op.destroy q) = setPage s q none := rfl
    rw [htag, hstep]
    unfold InvC7
    refine ⟨h0, ?_, h2, ?_, h4⟩
    · intro q2 qs2 hq2
      rw [setPage_pages] at hq2
      by_cases hqq : q2 = q
      · rw [if_pos hqq] at hq2
        cases hq2
      · rw [if_neg hqq] at hq2
        exact h1 q2 qs2 hq2
    · intro r hr
      obtain ⟨ps, hps, hk⟩ := h3 r hr
      refine ⟨ps, ?_, hk⟩
      rw [setPage_pages, if_neg (Ne.symm hq)]
      exact hps
  | rotate q =>
    simp only [opIngestCost, Nat.add_zero] at h0 h1
    have htag : tagStep s m (Op.rotate q) = m := rfl
    rw [htag]
    cases hpq : s.pages q with
    | none =>
      have hstep : step s (Op.rotate q) = s := by
        simp only [step]
        exact rotate_none s q hpq
      rw [hstep]
      exact ⟨h0, h1, h2, h3, h4⟩
    | some qs =>
      have hstep : step s (Op.rotate q) = setPage s q
          (some { qs with storage := (([] : List Nat) :: qs.storage).take maxNavigationSaved }) := by
        simp only [step]
        exact rotate_eq s q qs hpq
      rw [hstep]
      unfold InvC7
      refine ⟨h0, ?_, h2, ?_, h4⟩
      · intro q2 qs2 hq2
        rw [setPage_pages] at hq2
        by_cases hqq : q2 = q
        · rw [if_pos hqq] at hq2
          have hc : qs2.counter = qs.counter := by
            injection hq2 with h
            rw [← h]
          rw [hc]
          exact h1 q qs hpq
        · rw [if_neg hqq] at hq2
          exact h1 q2 qs2 hq2
      · intro r hr
        obtain ⟨ps, hps, k, hik, hk1, hklt⟩ := h3 r hr
        by_cases hpq2 : p = q
        · subst hpq2
          have hpsqs : ps = qs := by
            rw [hps] at hpq
            injection hpq
          refine ⟨{ qs with storage := (([] : List Nat) :: qs.storage).take maxNavigationSaved },
            ?_, k, hik, hk1, ?_⟩
          · rw [setPage_pages, if_pos rfl]
          · rw [← hpsqs]
            exact hklt
        · refine ⟨ps, ?_, k, hik, hk1, hklt⟩
          rw [setPage_pages, if_neg hpq2]
          exact hps
  | ingest q r =>
    simp only [opIngestCost] at h0 h1
    cases hq : s.pages q with
    | none =>
      have hstep : step s (Op.ingest q r) = s := by
        simp only [step]
        exact ingest_none s q r hq
      have htag : tagStep s m (Op.ingest q r) = m := by
        simp only [tagStep]
        have : assignHappens s q r = false := by
          unfold assignHappens
          rw [hq]
        rw [this]
        simp
      rw [hstep, htag]
      unfold InvC7
      refine ⟨by omega, ?_, h2, h3, h4⟩
      intro q2 qs2 hq2
      have := h1 q2 qs2 hq2
      omega
    | some qs =>
      cases hst : qs.storage with
      | nil =>
        have hstep : step s (Op.ingest q r) = s := by
          simp only [step]
          exact ingest_nilstore s q r qs hq hst
        have htag : tagStep s m (Op.ingest q r) = m := by
          simp only [tagStep]
          have : assignHappens s q r = false := by
            unfold assignHappens
            rw [hq]
            simp [hst]
          rw [this]
          simp
        rw [hstep, htag]
        unfold InvC7
        refine ⟨by omega, ?_, h2, h3, h4⟩
        intro q2 qs2 hq2
        have := h1 q2 qs2 hq2
        omega
      | cons w rest =>
        have hq2 : s.pages q = some ⟨qs.counter, w :: rest, qs.seenKeys⟩ := by
          rw [hq, ← hst]
        have hig := ingest_registered s q r qs.counter qs.seenKeys w rest hq2
        have hah : assignHappens s q r = needsAssign s r := by
          unfold assignHappens
          rw [hq]
          simp [hst]
        have hcb := h1 q qs hq
        by_cases hna : needsAssign s r = true
        · have hidr : s.ids r = none := by
            cases hi : s.ids r with
            | none => rfl
            | some k =>
              have hk1 := h2 r k hi
              unfold needsAssign at hna
              rw [hi] at hna
              simp at hna
              omega
          have hcne : qs.counter ≠ maxSafeInteger := by omega
          have hgen : idGenNext qs.counter = (qs.counter, qs.counter + 1) := by
            rw [idGenNext, if_neg hcne]
          have hstep : step s (Op.ingest q r) =
              { pages := fun x =>
                  if x = q then some ⟨qs.counter + 1, pushIfAbsent r w :: rest, qs.seenKeys⟩
                  else s.pages x,
                ids := fun x => if x = r then some qs.counter else s.ids x } := by
            simp only [step]
            rw [hig, hna, hgen]
            simp
          have htag : tagStep s m (Op.ingest q r) = fun x => if x = r then some q else m x := by
            simp only [tagStep]
            rw [hah, hna]
            simp
          rw [hstep, htag]
          unfold InvC7
          refine ⟨by omega, ?_, ?_, ?_, ?_⟩
          · intro q2 qs2 hqq2
            simp only at hqq2
            by_cases hqq : q2 = q
            · rw [if_pos hqq] at hqq2
              have : qs2 = ⟨qs.counter + 1, pushIfAbsent r w :: rest, qs.seenKeys⟩ := by
                injection hqq2 with h
                exact h.symm
              rw [this]
              constructor
              · show 1 ≤ qs.counter + 1
                omega
              · show qs.counter + 1 + fuel ≤ maxSafeInteger
                omega
            · rw [if_neg hqq] at hqq2
              have := h1 q2 qs2 hqq2
              omega
          · intro r2 k hik
            simp only at hik
            by_cases hrr : r2 = r
            · rw [if_pos hrr] at hik
              injection hik with h
              omega
            · rw [if_neg hrr] at hik
              exact h2 r2 k hik
          · intro r2 hr2
            simp only at hr2
            by_cases hrr : r2 = r
            · rw [if_pos hrr] at hr2
              have hqp : q = p := by injection hr2
              subst hqp
              refine ⟨⟨qs.counter + 1, pushIfAbsent r w :: rest, qs.seenKeys⟩, ?_,
                qs.counter, ?_, by omega, by simp⟩
              · simp
              · subst hrr
                simp
            · rw [if_neg hrr] at hr2
              obtain ⟨ps, hps, k, hik, hk1, hklt⟩ := h3 r2 hr2
              by_cases hpq : p = q
              · subst hpq
                have hpsqs : ps = qs := by
                  rw [hps] at hq
                  injection hq
                refine ⟨⟨qs.counter + 1, pushIfAbsent r w :: rest, qs.seenKeys⟩, by simp,
                  k, ?_, hk1, ?_⟩
                · simp only
                  rw [if_neg hrr]
                  exact hik
                · simp only
                  rw [hpsqs] at hklt
                  omega
              · refine ⟨ps, ?_, k, ?_, hk1, hklt⟩
                · simp only
                  rw [if_neg hpq]
                  exact hps
                · simp only
                  rw [if_neg hrr]
                  exact hik
          · intro r2 r3 hne hr2 hr3
            simp only at hr2 hr3 ⊢
            by_cases hr2r : r2 = r
            · rw [if_pos hr2r] at hr2
              have hqp : q = p := by injection hr2
              have hr3r : ¬ r3 = r := by
                intro h
                exact hne (by rw [hr2r, h])
              rw [if_neg hr3r] at hr3
              obtain ⟨ps, hps, k, hik, hk1, hklt⟩ := h3 r3 hr3
              have hpsqs : ps = qs := by
                rw [hqp] at hq
                rw [hps] at hq
                injection hq
              rw [if_pos hr2r, if_neg hr3r, hik]
              intro hcon
              injection hcon with hcon2
              rw [hpsqs] at hklt
              omega
            · rw [if_neg hr2r] at hr2
              by_cases hr3r : r3 = r
              · rw [if_pos hr3r] at hr3
                have hqp : q = p := by injection hr3
                obtain ⟨ps, hps, k, hik, hk1, hklt⟩ := h3 r2 hr2
                have hpsqs : ps = qs := by
                  rw [hqp] at hq
                  rw [hps] at hq
                  injection hq
                rw [if_neg hr2r, if_pos hr3r, hik]
                intro hcon
                injection hcon with hcon2
                rw [hpsqs] at hklt
                omega
              · rw [if_neg hr3r] at hr3
                rw [if_neg hr2r, if_neg hr3r]
                exact h4 r2 r3 hne hr2 hr3
        · have hnaf : needsAssign s r = false := by
            revert hna
            cases needsAssign s r <;> simp
          have hstep : step s (Op.ingest q r) =
              { pages := fun x =>
                  if x = q then some ⟨qs.counter, pushIfAbsent r w :: rest, qs.seenKeys⟩
                  else s.pages x,
                ids := s.ids } := by
            simp only [step]
            rw [hig, hnaf]
            simp
          have htag : tagStep s m (Op.ingest q r) = m := by
            simp only [tagStep]
            rw [hah, hnaf]
            simp
          rw [hstep, htag]
          unfold InvC7
          refine ⟨by omega, ?_, h2, ?_, h4⟩
          · intro q2 qs2 hqq2
            simp only at hqq2
            by_cases hqq : q2 = q
            · rw [if_pos hqq] at hqq2
              have : qs2 = ⟨qs.counter, pushIfAbsent r w :: rest, qs.seenKeys⟩ := by
                injection hqq2 with h
                exact h.symm
              rw [this]
              constructor
              · show 1 ≤ qs.counter
                omega
              · show qs.counter + fuel ≤ maxSafeInteger
                omega
            · rw [if_neg hqq] at hqq2
              have := h1 q2 qs2 hqq2
              omega
          · intro r2 hr2
            obtain ⟨ps, hps, k, hik, hk1, hklt⟩ := h3 r2 hr2
            by_cases hpq : p = q
            · subst hpq
              have hpsqs : ps = qs := by
                rw [hps] at hq
                injection hq
              refine ⟨⟨qs.counter, pushIfAbsent r w :: rest, qs.seenKeys⟩, by simp,
                k, hik, hk1, ?_⟩
              simp only
              rw [hpsqs] at hklt
              exact hklt
            · refine ⟨ps, ?_, k, hik, hk1, hklt⟩
              simp only
              rw [if_neg hpq]
              exact hps

end PC

namespace PC

/-- The id-uniqueness invariant holds along any destroy-free run. -/
theorem invC7_run (p : Nat) :
    ∀ (ops : List Op) (s : CState) (m : Nat → Option Nat),
      (∀ op ∈ ops, op ≠ Op.destroy p) →
      InvC7 p s m (ingestCount ops) →
      InvC7 p (runFrom s ops) (tagRun s m ops) 0 := by
  intro ops
  induction ops with
  | nil => intro s m _ h; exact h
  | cons op rest ih =>
    intro s m hnd h
    rw [runFrom, tagRun]
    apply ih (step s op) (tagStep s m op)
      (fun o ho => hnd o (List.mem_cons_of_mem op ho))
    apply invC7_step p s m op (ingestCount rest) (hnd op (List.mem_cons_self op rest))
    rw [← ingestCount_cons]
    exact h

/-- C7 counterexample. StableIds are not unique across pages for one
collector instance: each page gets its own generator starting at 1, so the
first item on page 0 and the first item on page 1 — two distinct objects —
both receive StableId 1. -/
theorem stableIds_collide_across_pages :
    (run [Op.addPage 0, Op.addPage 1, Op.ingest 0 10, Op.ingest 1 11]).ids 10 = some 1 ∧
    (run [Op.addPage 0, Op.addPage 1, Op.ingest 0 10, Op.ingest 1 11]).ids 11 = some 1 ∧
    (10 : Nat) ≠ 11 := by
  refine ⟨by decide, by decide, by decide⟩

/-- C7 amended. StableIds are unique per page, not per collector instance:
in any run that never destroys page `p` and performs fewer than
`MAX_SAFE_INTEGER` ingest calls (so no generator wraps), two distinct items
tagged by page `p`'s generator always carry distinct StableIds — while
distinct items tagged on different pages may share an id (see the
counterexample). -/
theorem stableIds_unique_per_page (ops : List Op) (p r r2 : Nat)
    (hnd : ∀ op ∈ ops, op ≠ Op.destroy p)
    (hic : ingestCount ops + 1 ≤ maxSafeInteger)
    (hr : tagMapOf ops r = some p) (hr2 : tagMapOf ops r2 = some p) (hne : r ≠ r2) :
    (run ops).ids r ≠ (run ops).ids r2 := by
  have hinv0 : InvC7 p initState (fun _ => none) (ingestCount ops) := by
    refine ⟨hic, ?_, ?_, ?_, ?_⟩
    · intro q qs h
      simp [initState] at h
    · intro a k h
      simp [initState] at h
    · intro a h
      simp at h
    · intro a b hab ha hb
      simp at ha
  have hinv := invC7_run p ops initState (fun _ => none) hnd hinv0
  exact hinv.2.2.2.2 r r2 hne hr hr2

/-- C7 witness: within one page, two distinct items get ids 1 and 2. -/
theorem stableIds_unique_per_page_witness :
    (run [Op.addPage 0, Op.ingest 0 4, Op.ingest 0 5]).ids 4
      ≠ (run [Op.addPage 0, Op.ingest 0 4, Op.ingest 0 5]).ids 5 :=
  stableIds_unique_per_page [Op.addPage 0, Op.ingest 0 4, Op.ingest 0 5] 0 4 5
    (by decide) (by decide) (by decide) (by decide) (by decide)

end PC
